import Mathlib

/-!
Verification of the `sqlbuilder` package (pkg/sqlbuilder/builder.go): a
compositional builder for SQL `select` statements.  Expressions, clauses and
statements are embedded as mutually inductive syntax trees; every Go `Build()`
method becomes a Lean function producing the same string.  Go closures
(`ExpressionFunc`) are represented by the constructor describing the closure's
captured data; each constructor function (`Ref`, `Const`, ...) mirrors the Go
function of the same name.
-/

namespace SqlBuilder

/-- Constant `defaultPlaceholder` from builder.go. -/
def defaultPlaceholder : String := "?"

/-- Constant `defaultExpressionDelimeter` from builder.go. -/
def defaultExpressionDelimeter : String := ", "

/-- Type `StatementKind`: `_unknownStatement = 0`, `_SelectStatement = 1`. -/
inductive StatementKind where
  | unknownStatement
  | selectStatement
deriving DecidableEq, Repr

/-- Method `StatementKind.String()` as generated by `stringer -linecomment`:
the select constant carries the line comment `select`. -/
def StatementKind.str : StatementKind → String
  | .unknownStatement => "_unknownStatement"
  | .selectStatement => "select"

/-- Type `ClauseKind`: the declaration order fixes the ordinal used as the slice
index in `Statement.Build`, hence the output position of each clause group. -/
inductive ClauseKind where
  | unknownClause
  | fromClause
  | joinClause
  | leftJoinClause
  | whereClause
  | groupByClause
  | orderByClause
deriving DecidableEq, Repr

/-- Method `ClauseKind.String()` as generated by `stringer -linecomment`. -/
def ClauseKind.str : ClauseKind → String
  | .unknownClause => "_unknownClause"
  | .fromClause => "from"
  | .joinClause => "join"
  | .leftJoinClause => "left join"
  | .whereClause => "where"
  | .groupByClause => "group by"
  | .orderByClause => "order by"

/-- The ordinal of a `ClauseKind`, as a valid index into the accumulator of
`Statement.Build` (the Go code sizes that slice by `len(_ClauseKind_index)`,
the stringer index table of the 7 constants, i.e. 8 entries). -/
def ClauseKind.idx : ClauseKind → Fin 8
  | .unknownClause => 0
  | .fromClause => 1
  | .joinClause => 2
  | .leftJoinClause => 3
  | .whereClause => 4
  | .groupByClause => 5
  | .orderByClause => 6

mutual

/-- Expressions: each constructor is one of the Go `ExpressionFunc` producers
(or `MultiExpression`, or a `Statement` used as an expression). -/
inductive Expr where
  | ref (name : String)
  | constE (value : String)
  | asE (e : Expr) (al : String)
  | window (fn : String) (c : Clause)
  | funcE (fn : String) (args : List Expr)
  | wrap (e : Expr)
  | multi (delim : String) (exprs : List Expr)
  | predicate (op : String) (left : Expr) (right : Option Expr)
  | placeholder
  | subselect (st : Statement)

/-- The concrete clause structs: `fromClause`, `joinClause`, `leftJoinClause`,
`whereClause` (whose field is a `MultiExpression`, stored here as its
delimiter and expression list), `groupByClause`, `orderByClause`. -/
inductive Clause where
  | fromC (tables : List Expr)
  | joinC (table : Expr) (predicates : List Expr)
  | leftJoinC (table : Expr) (predicates : List Expr)
  | whereC (delim : String) (predicates : List Expr)
  | groupByC (columns : List String)
  | orderByC (columns : List String)

/-- Type `Statement`: kind, projection expressions, append-order clause list. -/
inductive Statement where
  | mk (kind : StatementKind) (expressions : List Expr) (clauses : List Clause)

end

/-- Method `Clause.Kind()` of each clause struct. -/
def Clause.kind : Clause → ClauseKind
  | .fromC _ => .fromClause
  | .joinC _ _ => .joinClause
  | .leftJoinC _ _ => .leftJoinClause
  | .whereC _ _ => .whereClause
  | .groupByC _ => .groupByClause
  | .orderByC _ => .orderByClause

/-- Method `Clause.Delimeter()` of each clause struct. -/
def Clause.delim : Clause → String
  | .fromC _ => ", "
  | .joinC _ _ => " "
  | .leftJoinC _ _ => " "
  | .whereC _ _ => " and "
  | .groupByC _ => ", "
  | .orderByC _ => ", "

def Statement.kind : Statement → StatementKind
  | .mk k _ _ => k

def Statement.expressions : Statement → List Expr
  | .mk _ es _ => es

def Statement.clauses : Statement → List Clause
  | .mk _ _ cs => cs

/-- Function `strings.TrimSpace` as used at the end of `Statement.Build`: remove
leading and trailing whitespace. -/
def trimSpace (s : String) : String :=
  ⟨((s.data.dropWhile Char.isWhitespace).reverse.dropWhile Char.isWhitespace).reverse⟩

/-- The `clauseBuilder` accumulator entry of `Statement.Build`.  Its
`MultiExpression` holds the clauses of one kind in append order; since every
clause's `Build()` is a pure function of the clause, we store the built
strings directly (they are built once, at emission time, in the Go code). -/
structure ClauseBuilderS where
  kind : ClauseKind
  delim : String
  strs : List String
deriving DecidableEq, Repr

/-- One step of the clause-collection loop: create the slot (with the current
clause's delimiter) when it is still nil, then append the clause. -/
def slotStep (acc : Option ClauseBuilderS) (t : ClauseKind × String × String) :
    Option ClauseBuilderS :=
  match acc with
  | none => some ⟨t.1, t.2.1, [t.2.2]⟩
  | some s => some ⟨s.kind, s.delim, s.strs ++ [t.2.2]⟩

/-- The first loop of `Statement.Build`: walk the append-order clause list
(already rendered to `(kind, delimiter, text)` triples) and group by kind into
the fixed-size accumulator indexed by clause-kind ordinal. -/
def collectClauses (slots : Fin 8 → Option ClauseBuilderS) :
    List (ClauseKind × String × String) → (Fin 8 → Option ClauseBuilderS)
  | [] => slots
  | t :: rest =>
      collectClauses (Function.update slots t.1.idx (slotStep (slots t.1.idx) t)) rest

/-- The `onceClauses` table of `Statement.Build`: the clause kinds whose
keyword the assembler emits (exactly once) for the given statement kind. -/
def onceKinds : StatementKind → List ClauseKind
  | .selectStatement => [.whereClause, .fromClause]
  | .unknownStatement => []

/-- The body of the emission loop of `Statement.Build` for one accumulator
slot: a nil slot writes nothing; a non-nil slot writes the kind's keyword and
a space when the kind is in the once table, then the group's clauses joined
by the group's delimiter, then a space. -/
def emitStep (once : List ClauseKind) (acc : String) :
    Option ClauseBuilderS → String
  | none => acc
  | some g =>
      acc ++ (if g.kind ∈ once then g.kind.str ++ " " else "")
          ++ String.intercalate g.delim g.strs ++ " "

/-- The second loop of `Statement.Build`: walk the accumulator slots in
ascending index (= clause kind) order, emitting each one. -/
def emitSlots (once : List ClauseKind) (init : String)
    (slots : Fin 8 → Option ClauseBuilderS) : String :=
  (List.finRange 8).foldl (fun acc j => emitStep once acc (slots j)) init

mutual

/-- Method `Build()` of every expression form. -/
def Expr.build : Expr → String
  | .ref name => name
  | .constE v => "'" ++ v ++ "'"
  | .asE e a => e.build ++ " as " ++ ("'" ++ a ++ "'")
  | .window fn c => fn ++ " over (" ++ c.build ++ ")"
  | .funcE fn args => fn ++ "(" ++ String.intercalate ", " (buildExprList args) ++ ")"
  | .wrap e => "(" ++ e.build ++ ")"
  | .multi d exprs => String.intercalate d (buildExprList exprs)
  | .predicate op l r =>
      match r with
      | none => l.build ++ " " ++ op
      | some rr => l.build ++ " " ++ op ++ " " ++ rr.build
  | .placeholder => defaultPlaceholder
  | .subselect st => st.build

/-- Method `Build()` of every clause struct. -/
def Clause.build : Clause → String
  | .fromC tables => String.intercalate defaultExpressionDelimeter (buildExprList tables)
  | .joinC t ps =>
      ClauseKind.joinClause.str ++ " " ++ t.build ++ " on "
        ++ String.intercalate " and " (buildExprList ps)
  | .leftJoinC t ps =>
      ClauseKind.leftJoinClause.str ++ " " ++ t.build ++ " on "
        ++ String.intercalate " and " (buildExprList ps)
  | .whereC d ps => "(" ++ String.intercalate d (buildExprList ps) ++ ")"
  | .groupByC cols =>
      ClauseKind.groupByClause.str ++ " " ++ String.intercalate defaultExpressionDelimeter cols
  | .orderByC cols =>
      ClauseKind.orderByClause.str ++ " " ++ String.intercalate defaultExpressionDelimeter cols

/-- Method `Statement.Build`: statement keyword, projection expressions each followed
by a space, then the kind-grouped clause emission, finally trimmed. -/
def Statement.build : Statement → String
  | .mk k es cs =>
      trimSpace (emitSlots (onceKinds k)
        ((buildExprList es).foldl (fun acc b => acc ++ (b ++ " ")) (k.str ++ " "))
        (collectClauses (fun _ => none) (clauseTriples cs)))

/-- Renders each expression of a list (`MultiExpression.Build`'s loop). -/
def buildExprList : List Expr → List String
  | [] => []
  | e :: es => e.build :: buildExprList es

/-- Renders each clause to the `(Kind(), Delimeter(), Build())` triple the
collection loop of `Statement.Build` reads. -/
def clauseTriples : List Clause → List (ClauseKind × String × String)
  | [] => []
  | c :: cs => (c.kind, c.delim, c.build) :: clauseTriples cs

end

/-! The public constructor functions of the package. -/

def Ref (name : String) : Expr := .ref name

def Const (value : String) : Expr := .constE value

def As (expr : Expr) (al : String) : Expr := .asE expr al

def RefAs (name al : String) : Expr := As (Ref name) al

def Window (fn : String) (c : Clause) : Expr := .window fn c

def Func (fn : String) (args : List Expr) : Expr := .funcE fn args

def Wrap (expr : Expr) : Expr := .wrap expr

def Columns (cols : List Expr) : Expr := .multi defaultExpressionDelimeter cols

def Predicate (op : String) (left : Expr) (right : Option Expr) : Expr :=
  .predicate op left right

def Equals (left right : Expr) : Expr := Predicate "=" left (some right)

def Greater (left right : Expr) : Expr := Predicate ">" left (some right)

def Less (left right : Expr) : Expr := Predicate "<" left (some right)

def GreaterOrEqual (left right : Expr) : Expr := Predicate ">=" left (some right)

def LessOrEqual (left right : Expr) : Expr := Predicate "<=" left (some right)

def InExpr (left right : Expr) : Expr := Predicate "in" left (some (Wrap right))

def Like (left right : Expr) : Expr := Predicate "like" left (some right)

def NotLike (left right : Expr) : Expr := Predicate "not like" left (some right)

def Between (left right : Expr) : Expr := Predicate "between" left (some right)

def IsNull (expr : Expr) : Expr := Predicate "is null" expr none

def IsNotNull (expr : Expr) : Expr := Predicate "is not null" expr none

def Placeholder : Expr := .placeholder

/-- Function `OrderByC`: an `orderByClause` used directly as a clause value. -/
def OrderByC (cols : List String) : Clause := .orderByC cols

/-- Type `StatementOption`: mutates the statement by appending clauses; modelled
as a function on statements. -/
def StatementOption : Type := Statement → Statement

/-- Function `Select`: fixes the kind, stores the projection, applies the options in
order. -/
def Select (columns : Expr) (opts : List StatementOption) : Statement :=
  opts.foldl (fun st opt => opt st) (.mk .selectStatement [columns] [])

/-- Function `From`: appends one `fromClause` carrying the whole table list. -/
def From (tables : List Expr) : StatementOption :=
  fun st => match st with
  | .mk k es cs => .mk k es (cs ++ [.fromC tables])

/-- Function `FromSubselect`: wrap the sub-statement in parentheses, alias it when the
alias is non-empty, and route it through `From`. -/
def FromSubselect (sub : Statement) (al : String) : StatementOption :=
  let expr := Wrap (.subselect sub)
  let expr := if al ≠ "" then As expr al else expr
  From [expr]

def Join (table : Expr) (predicates : List Expr) : StatementOption :=
  fun st => match st with
  | .mk k es cs => .mk k es (cs ++ [.joinC table predicates])

def LeftJoin (table : Expr) (predicates : List Expr) : StatementOption :=
  fun st => match st with
  | .mk k es cs => .mk k es (cs ++ [.leftJoinC table predicates])

/-- Function `Where`: appends one `whereClause` whose `MultiExpression` joins the
given predicates with `" and "`. -/
def Where (predicates : List Expr) : StatementOption :=
  fun st => match st with
  | .mk k es cs => .mk k es (cs ++ [.whereC " and " predicates])

def OrderBy (cols : List String) : StatementOption :=
  fun st => match st with
  | .mk k es cs => .mk k es (cs ++ [.orderByC cols])

def GroupBy (cols : List String) : StatementOption :=
  fun st => match st with
  | .mk k es cs => .mk k es (cs ++ [.groupByC cols])

/-! ## Specification-side renderer

`Statement.buildOrdered` re-states the assembler the way the specification
describes it: group the clauses by kind (keeping append order inside a kind),
then emit the non-empty groups in the fixed ascending kind order
`from < join < left join < where < group by < order by`, each joined by its
kind's delimiter, with the keyword emitted once for the keyword-once kinds.
It is compared with `Statement.build` (translated from the code). -/

/-- The delimiter associated with each clause kind (every clause struct of a
given kind declares the same `Delimeter()`). -/
def ClauseKind.delimStr : ClauseKind → String
  | .unknownClause => ""
  | .fromClause => ", "
  | .joinClause => " "
  | .leftJoinClause => " "
  | .whereClause => " and "
  | .groupByClause => ", "
  | .orderByClause => ", "

/-- The clauses of one kind, in append order. -/
def clausesOfKind (cs : List Clause) (k : ClauseKind) : List Clause :=
  cs.filter (fun c => c.kind = k)

/-- The fixed ascending output order of the clause kinds. -/
def kindOrder : List ClauseKind :=
  [.fromClause, .joinClause, .leftJoinClause, .whereClause, .groupByClause, .orderByClause]

/-- The rendering of one clause kind's group: nothing when the statement has
no clause of the kind; otherwise the keyword (for keyword-once kinds) and the
append-order clause renderings joined by the kind's delimiter. -/
def groupRender (sk : StatementKind) (cs : List Clause) (k : ClauseKind) : String :=
  if (clausesOfKind cs k).isEmpty then ""
  else
    (if k ∈ onceKinds sk then k.str ++ " " else "")
      ++ String.intercalate k.delimStr ((clausesOfKind cs k).map Clause.build) ++ " "

/-- The spec-side renderer. -/
def Statement.buildOrdered (s : Statement) : String :=
  trimSpace ((s.kind.str ++ " ")
    ++ String.join (s.expressions.map (fun e => e.build ++ " "))
    ++ String.join (kindOrder.map (groupRender s.kind s.clauses)))

/-! ## Emission trace

`Statement.buildPieces` records the sequence of strings `Statement.Build`
writes to its `strings.Builder`, each tagged with its role: plain text
(statement keyword, projection expressions), a clause-kind keyword written by
the keyword-once table, or a clause group's joined content.  `Statement.build`
is the trimmed concatenation of the rendered pieces (proved below), so the
trace makes "the assembler emitted this keyword" a formal statement. -/

inductive Piece where
  | text (s : String)
  | keyword (k : ClauseKind)
  | content (k : ClauseKind) (s : String)
deriving DecidableEq, Repr

def Piece.render : Piece → String
  | .text s => s
  | .keyword k => k.str ++ " "
  | .content _ s => s ++ " "

def renderPieces : List Piece → String
  | [] => ""
  | p :: ps => p.render ++ renderPieces ps

/-- The pieces one accumulator slot contributes during emission. -/
def pieceStep (once : List ClauseKind) : Option ClauseBuilderS → List Piece
  | none => []
  | some g =>
      (if g.kind ∈ once then [Piece.keyword g.kind] else [])
        ++ [Piece.content g.kind (String.intercalate g.delim g.strs)]

/-- The pieces of the whole emission loop, in write order. -/
def emitSlotPieces (once : List ClauseKind) (slots : Fin 8 → Option ClauseBuilderS) :
    List Piece :=
  (List.finRange 8).foldl (fun acc j => acc ++ pieceStep once (slots j)) []

/-- The full write trace of `Statement.Build`. -/
def Statement.buildPieces : Statement → List Piece
  | .mk k es cs =>
      Piece.text (k.str ++ " ")
        :: ((buildExprList es).map (fun b => Piece.text (b ++ " "))
            ++ emitSlotPieces (onceKinds k) (collectClauses (fun _ => none) (clauseTriples cs)))

/-- The pieces a clause kind's group contributes (spec-side counterpart of
`pieceStep`). -/
def groupPieces (sk : StatementKind) (cs : List Clause) (k : ClauseKind) : List Piece :=
  if (clausesOfKind cs k).isEmpty then []
  else
    (if k ∈ onceKinds sk then [Piece.keyword k] else [])
      ++ [Piece.content k (String.intercalate k.delimStr ((clausesOfKind cs k).map Clause.build))]

/-! ## Basic lemmas -/

theorem buildExprList_eq_map (es : List Expr) : buildExprList es = es.map Expr.build := by
  induction es with
  | nil => rfl
  | cons e es ih => simp [buildExprList, ih]

theorem clauseTriples_eq_map (cs : List Clause) :
    clauseTriples cs = cs.map (fun c => (c.kind, c.delim, c.build)) := by
  induction cs with
  | nil => rfl
  | cons c cs ih => simp [clauseTriples, ih]

theorem Clause.delim_eq_delimStr (c : Clause) : c.delim = c.kind.delimStr := by
  cases c <;> rfl

theorem Clause.kind_ne_unknown (c : Clause) : c.kind ≠ ClauseKind.unknownClause := by
  cases c <;> · simp only [Clause.kind]; decide

theorem clause_kind_idx_ne_seven (c : Clause) : c.kind.idx ≠ (7 : Fin 8) := by
  cases c <;> · simp only [Clause.kind]; decide

theorem kindIdx_decide_eq (a b : ClauseKind) :
    decide (a.idx = b.idx) = decide (a = b) := by
  cases a <;> cases b <;> rfl

theorem join_cons (a : String) (l : List String) :
    String.join (a :: l) = a ++ String.join l := by
  apply String.ext
  simp [String.join_eq, String.data_append]

theorem join_nil : String.join [] = "" := rfl

/-! ## Characterization of the clause-collection loop -/

theorem collectClauses_apply (ts : List (ClauseKind × String × String))
    (slots : Fin 8 → Option ClauseBuilderS) (j : Fin 8) :
    collectClauses slots ts j =
      (ts.filter (fun t => t.1.idx = j)).foldl slotStep (slots j) := by
  induction ts generalizing slots with
  | nil => rfl
  | cons t ts ih =>
      rw [collectClauses, ih]
      by_cases h : t.1.idx = j
      · subst h
        simp [List.filter_cons, Function.update_same]
      · simp [List.filter_cons, h, Function.update_noteq (Ne.symm h)]

theorem foldl_slotStep_some (l : List (ClauseKind × String × String))
    (k : ClauseKind) (d : String) (acc : List String) :
    l.foldl slotStep (some ⟨k, d, acc⟩) =
      some ⟨k, d, acc ++ l.map (fun t => t.2.2)⟩ := by
  induction l generalizing acc with
  | nil => simp
  | cons t l ih => simp [List.foldl, slotStep, ih]

theorem foldl_slotStep_none (t : ClauseKind × String × String)
    (l : List (ClauseKind × String × String)) :
    (t :: l).foldl slotStep none =
      some ⟨t.1, t.2.1, t.2.2 :: l.map (fun x => x.2.2)⟩ := by
  simp [List.foldl, slotStep, foldl_slotStep_some]

theorem clausesOfKind_triples (cs : List Clause) (k : ClauseKind) :
    (clauseTriples cs).filter (fun t => t.1.idx = k.idx) =
      (clausesOfKind cs k).map (fun c => (c.kind, c.delim, c.build)) := by
  rw [clauseTriples_eq_map, List.filter_map]
  unfold clausesOfKind
  congr 1
  apply List.filter_congr
  intro c _
  simpa using kindIdx_decide_eq c.kind k

theorem clausesOfKind_kind (cs : List Clause) (k : ClauseKind) :
    ∀ c ∈ clausesOfKind cs k, c.kind = k := by
  intro c hc
  have h := (List.mem_filter.mp hc).2
  exact of_decide_eq_true h

theorem clausesOfKind_unknown (cs : List Clause) :
    clausesOfKind cs ClauseKind.unknownClause = [] := by
  apply List.filter_eq_nil_iff.mpr
  intro c _
  simpa using Clause.kind_ne_unknown c

theorem collect_at_kind (cs : List Clause) (k : ClauseKind) :
    collectClauses (fun _ => none) (clauseTriples cs) k.idx =
      if (clausesOfKind cs k).isEmpty then none
      else some ⟨k, k.delimStr, (clausesOfKind cs k).map Clause.build⟩ := by
  rw [collectClauses_apply, clausesOfKind_triples]
  cases h : clausesOfKind cs k with
  | nil => simp
  | cons c l =>
      have hk : c.kind = k := clausesOfKind_kind cs k c (h ▸ List.mem_cons_self c l)
      have hd : c.delim = k.delimStr := hk ▸ Clause.delim_eq_delimStr c
      simp [foldl_slotStep_none, hk, hd, List.map_map, Function.comp,
        slotStep, foldl_slotStep_some]

theorem collect_at_seven (cs : List Clause) :
    collectClauses (fun _ => none) (clauseTriples cs) 7 = none := by
  rw [collectClauses_apply]
  have h : (clauseTriples cs).filter (fun t => t.1.idx = (7 : Fin 8)) = [] := by
    apply List.filter_eq_nil_iff.mpr
    intro t ht
    rw [clauseTriples_eq_map] at ht
    obtain ⟨c, _, rfl⟩ := List.mem_map.mp ht
    simpa using clause_kind_idx_ne_seven c
  rw [h]
  rfl

/-! ## The assembler renders groups in ascending kind order -/

theorem groupRender_unknown (sk : StatementKind) (cs : List Clause) :
    groupRender sk cs ClauseKind.unknownClause = "" := by
  simp [groupRender, clausesOfKind_unknown]

theorem emitStep_collect (sk : StatementKind) (cs : List Clause) (k : ClauseKind)
    (acc : String) :
    emitStep (onceKinds sk) acc (collectClauses (fun _ => none) (clauseTriples cs) k.idx)
      = acc ++ groupRender sk cs k := by
  rw [collect_at_kind]
  by_cases h : (clausesOfKind cs k).isEmpty
  · simp [h, emitStep, groupRender]
  · simp [h, emitStep, groupRender, String.append_assoc]

theorem header_foldl (l : List String) (init : String) :
    l.foldl (fun acc b => acc ++ (b ++ " ")) init
      = init ++ String.join (l.map (fun b => b ++ " ")) := by
  induction l generalizing init with
  | nil => simp [join_nil]
  | cons b l ih => simp [List.foldl, ih, join_cons, String.append_assoc]

theorem finRange_eight :
    List.finRange 8 = [0, 1, 2, 3, 4, 5, 6, 7] := by decide

theorem emitSlots_collect (sk : StatementKind) (cs : List Clause) (init : String) :
    emitSlots (onceKinds sk) init (collectClauses (fun _ => none) (clauseTriples cs))
      = init ++ String.join (kindOrder.map (groupRender sk cs)) := by
  unfold emitSlots
  rw [finRange_eight]
  simp only [List.foldl]
  have h0 : (0 : Fin 8) = ClauseKind.unknownClause.idx := rfl
  have h1 : (1 : Fin 8) = ClauseKind.fromClause.idx := rfl
  have h2 : (2 : Fin 8) = ClauseKind.joinClause.idx := rfl
  have h3 : (3 : Fin 8) = ClauseKind.leftJoinClause.idx := rfl
  have h4 : (4 : Fin 8) = ClauseKind.whereClause.idx := rfl
  have h5 : (5 : Fin 8) = ClauseKind.groupByClause.idx := rfl
  have h6 : (6 : Fin 8) = ClauseKind.orderByClause.idx := rfl
  rw [h0, h1, h2, h3, h4, h5, h6, collect_at_seven]
  rw [emitStep_collect, emitStep_collect, emitStep_collect, emitStep_collect,
    emitStep_collect, emitStep_collect, emitStep_collect]
  simp [emitStep, kindOrder, groupRender_unknown, join_cons, join_nil,
    String.append_assoc]

theorem build_eq_buildOrdered (s : Statement) : s.build = s.buildOrdered := by
  cases s with
  | mk k es cs =>
      show trimSpace _ = trimSpace _
      congr 1
      rw [header_foldl, emitSlots_collect]
      simp [Statement.kind, Statement.expressions, Statement.clauses,
        buildExprList_eq_map, List.map_map, Function.comp_def, String.append_assoc]

/-! ## The write trace describes the built string -/

theorem renderPieces_append (a b : List Piece) :
    renderPieces (a ++ b) = renderPieces a ++ renderPieces b := by
  induction a with
  | nil => simp [renderPieces, String.empty_append]
  | cons p a ih => simp [renderPieces, ih, String.append_assoc]

theorem emitStep_eq_pieces (once : List ClauseKind) (acc : String)
    (slot : Option ClauseBuilderS) :
    emitStep once acc slot = acc ++ renderPieces (pieceStep once slot) := by
  cases slot with
  | none => simp [emitStep, pieceStep, renderPieces]
  | some g =>
      by_cases h : g.kind ∈ once <;>
        simp [emitStep, pieceStep, renderPieces, h, Piece.render, String.append_assoc]

theorem piecesFold_acc (once : List ClauseKind) (slots : Fin 8 → Option ClauseBuilderS)
    (ls : List (Fin 8)) (acc : List Piece) :
    ls.foldl (fun a j => a ++ pieceStep once (slots j)) acc
      = acc ++ ls.foldl (fun a j => a ++ pieceStep once (slots j)) [] := by
  induction ls generalizing acc with
  | nil => simp
  | cons j ls ih =>
      rw [List.foldl, List.foldl, ih, List.nil_append, ih (pieceStep once (slots j))]
      simp [List.append_assoc]

theorem emitSlots_eq_pieces (once : List ClauseKind) (init : String)
    (slots : Fin 8 → Option ClauseBuilderS) :
    emitSlots once init slots = init ++ renderPieces (emitSlotPieces once slots) := by
  unfold emitSlots emitSlotPieces
  generalize List.finRange 8 = ls
  induction ls generalizing init with
  | nil => simp [renderPieces]
  | cons j ls ih =>
      rw [List.foldl, List.foldl, ih, emitStep_eq_pieces, List.nil_append,
        piecesFold_acc once slots ls (pieceStep once (slots j))]
      simp [renderPieces_append, String.append_assoc]

theorem renderPieces_texts (l : List String) :
    renderPieces (l.map (fun b => Piece.text (b ++ " ")))
      = String.join (l.map (fun b => b ++ " ")) := by
  induction l with
  | nil => simp [renderPieces, join_nil]
  | cons b l ih => simp [renderPieces, ih, join_cons, Piece.render]

theorem build_eq_pieces (s : Statement) :
    s.build = trimSpace (renderPieces s.buildPieces) := by
  cases s with
  | mk k es cs =>
      show trimSpace _ = trimSpace _
      congr 1
      rw [header_foldl, emitSlots_eq_pieces]
      simp [renderPieces, renderPieces_append, renderPieces_texts, Piece.render,
        String.append_assoc]

/-! ## Which pieces the assembler writes -/

theorem groupPieces_unknown (sk : StatementKind) (cs : List Clause) :
    groupPieces sk cs ClauseKind.unknownClause = [] := by
  simp [groupPieces, clausesOfKind_unknown]

theorem pieceStep_collect (sk : StatementKind) (cs : List Clause) (k : ClauseKind) :
    pieceStep (onceKinds sk) (collectClauses (fun _ => none) (clauseTriples cs) k.idx)
      = groupPieces sk cs k := by
  rw [collect_at_kind]
  by_cases h : (clausesOfKind cs k).isEmpty <;> simp [h, pieceStep, groupPieces]

theorem emitSlotPieces_collect (sk : StatementKind) (cs : List Clause) :
    emitSlotPieces (onceKinds sk) (collectClauses (fun _ => none) (clauseTriples cs))
      = (kindOrder.map (groupPieces sk cs)).flatten := by
  unfold emitSlotPieces
  rw [finRange_eight]
  simp only [List.foldl]
  have h0 : (0 : Fin 8) = ClauseKind.unknownClause.idx := rfl
  have h1 : (1 : Fin 8) = ClauseKind.fromClause.idx := rfl
  have h2 : (2 : Fin 8) = ClauseKind.joinClause.idx := rfl
  have h3 : (3 : Fin 8) = ClauseKind.leftJoinClause.idx := rfl
  have h4 : (4 : Fin 8) = ClauseKind.whereClause.idx := rfl
  have h5 : (5 : Fin 8) = ClauseKind.groupByClause.idx := rfl
  have h6 : (6 : Fin 8) = ClauseKind.orderByClause.idx := rfl
  rw [h0, h1, h2, h3, h4, h5, h6, collect_at_seven]
  rw [pieceStep_collect, pieceStep_collect, pieceStep_collect, pieceStep_collect,
    pieceStep_collect, pieceStep_collect, pieceStep_collect]
  simp [pieceStep, kindOrder, groupPieces_unknown]

/-- The full write trace, spec-side: header texts then the kind groups in
ascending kind order. -/
theorem buildPieces_eq (k : StatementKind) (es : List Expr) (cs : List Clause) :
    (Statement.mk k es cs).buildPieces =
      Piece.text (k.str ++ " ")
        :: ((es.map (fun e => Piece.text (e.build ++ " ")))
            ++ (kindOrder.map (groupPieces k cs)).flatten) := by
  simp only [Statement.buildPieces]
  rw [emitSlotPieces_collect, buildExprList_eq_map]
  simp [List.map_map, Function.comp_def]

theorem groupRender_congr (sk : StatementKind) (cs cs' : List Clause) (k : ClauseKind)
    (h : clausesOfKind cs k = clausesOfKind cs' k) :
    groupRender sk cs k = groupRender sk cs' k := by
  unfold groupRender
  rw [h]

theorem count_keyword_group (sk : StatementKind) (cs : List Clause) (k k' : ClauseKind) :
    (groupPieces sk cs k').count (Piece.keyword k)
      = if k' = k ∧ k ∈ onceKinds sk ∧ (clausesOfKind cs k').isEmpty = false
        then 1 else 0 := by
  by_cases he : (clausesOfKind cs k').isEmpty
  · simp [groupPieces, he]
  · by_cases hkk : k' = k
    · subst hkk
      by_cases ho : k' ∈ onceKinds sk <;>
        simp [groupPieces, he, ho, List.count_cons, List.count_nil]
    · by_cases ho : k' ∈ onceKinds sk <;>
        simp [groupPieces, he, ho, hkk, List.count_cons, List.count_nil, Ne.symm hkk]

theorem mem_groupPieces (sk : StatementKind) (cs : List Clause) (k' : ClauseKind) :
    ∀ p ∈ groupPieces sk cs k',
      (clausesOfKind cs k').isEmpty = false
      ∧ (p = Piece.keyword k'
         ∨ p = Piece.content k' (String.intercalate k'.delimStr
              ((clausesOfKind cs k').map Clause.build))) := by
  intro p hp
  by_cases he : (clausesOfKind cs k').isEmpty
  · simp [groupPieces, he] at hp
  · refine ⟨by simpa using he, ?_⟩
    by_cases ho : k' ∈ onceKinds sk <;> simp [groupPieces, he, ho] at hp <;> tauto

theorem flatten_groups_split (sk : StatementKind) (cs : List Clause) (k : ClauseKind)
    (hk : k ∈ kindOrder) : ∃ pre post,
    (kindOrder.map (groupPieces sk cs)).flatten = pre ++ (groupPieces sk cs k ++ post) := by
  simp only [kindOrder, List.mem_cons, List.not_mem_nil, or_false] at hk
  rcases hk with rfl | rfl | rfl | rfl | rfl | rfl
  · exact ⟨[], groupPieces sk cs .joinClause ++ (groupPieces sk cs .leftJoinClause
      ++ (groupPieces sk cs .whereClause ++ (groupPieces sk cs .groupByClause
      ++ groupPieces sk cs .orderByClause))), by simp [kindOrder]⟩
  · exact ⟨groupPieces sk cs .fromClause, groupPieces sk cs .leftJoinClause
      ++ (groupPieces sk cs .whereClause ++ (groupPieces sk cs .groupByClause
      ++ groupPieces sk cs .orderByClause)), by simp [kindOrder]⟩
  · exact ⟨groupPieces sk cs .fromClause ++ groupPieces sk cs .joinClause,
      groupPieces sk cs .whereClause ++ (groupPieces sk cs .groupByClause
      ++ groupPieces sk cs .orderByClause), by simp [kindOrder]⟩
  · exact ⟨groupPieces sk cs .fromClause ++ groupPieces sk cs .joinClause
      ++ groupPieces sk cs .leftJoinClause, groupPieces sk cs .groupByClause
      ++ groupPieces sk cs .orderByClause, by simp [kindOrder]⟩
  · exact ⟨groupPieces sk cs .fromClause ++ groupPieces sk cs .joinClause
      ++ groupPieces sk cs .leftJoinClause ++ groupPieces sk cs .whereClause,
      groupPieces sk cs .orderByClause, by simp [kindOrder]⟩
  · exact ⟨groupPieces sk cs .fromClause ++ groupPieces sk cs .joinClause
      ++ groupPieces sk cs .leftJoinClause ++ groupPieces sk cs .whereClause
      ++ groupPieces sk cs .groupByClause, [], by simp [kindOrder]⟩

theorem kind_mem_kindOrder (k : ClauseKind) (h : k ≠ ClauseKind.unknownClause) :
    k ∈ kindOrder := by
  cases k <;> simp [kindOrder] at h ⊢

/-- The assembler writes, for every kind with at least one clause, exactly one
content piece holding the append-order clause renderings joined by the kind's
delimiter. -/
theorem content_piece_mem (s : Statement) (k : ClauseKind)
    (h : (clausesOfKind s.clauses k).isEmpty = false) :
    Piece.content k (String.intercalate k.delimStr
      ((clausesOfKind s.clauses k).map Clause.build)) ∈ s.buildPieces := by
  cases s with
  | mk sk es cs =>
      have hku : k ≠ ClauseKind.unknownClause := by
        intro hk
        rw [hk, clausesOfKind_unknown] at h
        simp at h
      obtain ⟨pre, post, hsplit⟩ :=
        flatten_groups_split sk cs k (kind_mem_kindOrder k hku)
      rw [buildPieces_eq]
      simp only [Statement.clauses] at h ⊢
      rw [hsplit]
      have hmem : Piece.content k (String.intercalate k.delimStr
          ((clausesOfKind cs k).map Clause.build)) ∈ groupPieces sk cs k := by
        by_cases ho : k ∈ onceKinds sk <;> simp [groupPieces, h, ho]
      simp [hmem]

/-! ## The claims -/

/-- C1: for any two statements with the same kind and projection whose clause
lists agree kind-by-kind — i.e. the same clauses were appended, in whatever
order the configuration functions were applied — `Build` produces the same
string, and that string renders the clause groups in the fixed ascending kind
order `from < join < left join < where < group by < order by` (the order
`kindOrder` spelled out by `buildOrdered`). -/
theorem c1_clause_groups_fixed_kind_order (s t : Statement)
    (hk : s.kind = t.kind) (he : s.expressions = t.expressions)
    (hc : ∀ k, clausesOfKind s.clauses k = clausesOfKind t.clauses k) :
    s.build = t.build ∧ s.build = s.buildOrdered := by
  refine ⟨?_, build_eq_buildOrdered s⟩
  rw [build_eq_buildOrdered, build_eq_buildOrdered]
  unfold Statement.buildOrdered
  rw [hk, he]
  congr 1
  congr 1
  exact congrArg String.join
    (List.map_congr_left (fun k _ => groupRender_congr t.kind s.clauses t.clauses k (hc k)))

theorem c1_clause_groups_fixed_kind_order_witness :
    ((Select (Ref "*") [OrderBy ["c"], Where [Equals (Ref "a") Placeholder],
        From [Ref "t"]]).kind
      = (Select (Ref "*") [From [Ref "t"], Where [Equals (Ref "a") Placeholder],
        OrderBy ["c"]]).kind)
    ∧ ((Select (Ref "*") [OrderBy ["c"], Where [Equals (Ref "a") Placeholder],
        From [Ref "t"]]).build
      = (Select (Ref "*") [From [Ref "t"], Where [Equals (Ref "a") Placeholder],
        OrderBy ["c"]]).build) :=
  ⟨rfl,
    (c1_clause_groups_fixed_kind_order
      (Select (Ref "*") [OrderBy ["c"], Where [Equals (Ref "a") Placeholder],
        From [Ref "t"]])
      (Select (Ref "*") [From [Ref "t"], Where [Equals (Ref "a") Placeholder],
        OrderBy ["c"]])
      rfl rfl (fun k => by cases k <;> rfl)).1⟩

/-- C3: two `Where` calls each contribute their own parenthesized predicate
group, and the groups are joined with `" and "`. -/
theorem c3_where_merging :
    (Select (Ref "*")
      [From [Ref "t"], Where [Equals (Ref "a") Placeholder],
       Where [Equals (Ref "b") Placeholder]]).build
    = "select * from t where (a = ?) and (b = ?)" := by decide

/-- C5: rendering is a pure read of the statement: building twice gives the
same string, and the output depends only on the statement's kind, projection
and clause list (no hidden state, no mutation of the statement). -/
theorem c5_build_idempotent (s : Statement) :
    s.build = s.build
    ∧ ∀ t : Statement, s.kind = t.kind → s.expressions = t.expressions →
        s.clauses = t.clauses → s.build = t.build := by
  refine ⟨rfl, fun t h1 h2 h3 => ?_⟩
  cases s with
  | mk k es cs =>
      cases t with
      | mk k' es' cs' =>
          simp only [Statement.kind, Statement.expressions, Statement.clauses]
            at h1 h2 h3
          subst h1; subst h2; subst h3
          rfl

theorem c5_build_idempotent_witness :
    ((Select (Ref "x") [From [Ref "t"]]).kind
        = (Statement.mk .selectStatement [Ref "x"] [.fromC [Ref "t"]]).kind)
    ∧ ((Select (Ref "x") [From [Ref "t"]]).build
        = (Statement.mk .selectStatement [Ref "x"] [.fromC [Ref "t"]]).build) :=
  ⟨rfl,
    (c5_build_idempotent (Select (Ref "x") [From [Ref "t"]])).2
      (Statement.mk .selectStatement [Ref "x"] [.fromC [Ref "t"]]) rfl rfl rfl⟩

/-- C6: the unary predicates put the operator last with nothing after it:
`IsNull e` renders as `e`'s text followed by `" is null"`, `IsNotNull e` as
`e`'s text followed by `" is not null"` — the nil right operand is omitted,
so there is no trailing fragment and no trailing space. -/
theorem c6_unary_predicates (e : Expr) :
    (IsNull e).build = e.build ++ " is null"
    ∧ (IsNotNull e).build = e.build ++ " is not null" := by
  constructor <;>
    simp [IsNull, IsNotNull, Predicate, Expr.build, String.append_assoc]

/-- C7: `FromSubselect` wraps the sub-statement in parentheses and aliases it
as a quoted literal when the alias is non-empty; the from-table expression
renders as `(select id from t) as 's'`, the option routes it through `From`,
and the enclosing statement builds to
`select * from (select id from t) as 's'`. -/
theorem c7_from_subselect :
    (As (Wrap (Expr.subselect (Select (Columns [Ref "id"]) [From [Ref "t"]]))) "s").build
      = "(select id from t) as 's'"
    ∧ (∀ st : Statement,
        FromSubselect (Select (Columns [Ref "id"]) [From [Ref "t"]]) "s" st
          = From [As (Wrap (Expr.subselect
              (Select (Columns [Ref "id"]) [From [Ref "t"]]))) "s"] st)
    ∧ (Select (Ref "*")
        [FromSubselect (Select (Columns [Ref "id"]) [From [Ref "t"]]) "s"]).build
      = "select * from (select id from t) as 's'" :=
  ⟨by decide, fun st => rfl, by decide⟩

/-- C10: a `Where` call with zero predicates still appends a where clause
(with an empty predicate group), and a select statement whose only where
contribution is that empty group renders `where ()` at the end. -/
theorem c10_empty_where_kept (st : Statement) :
    (Where [] st).clauses = st.clauses ++ [Clause.whereC " and " []]
    ∧ (Select (Ref "*") [From [Ref "t"], Where []]).build
        = "select * from t where ()" := by
  refine ⟨?_, by decide⟩
  cases st with
  | mk k es cs => rfl

/-- C2: on a select statement the assembler writes the `from` (respectively
`where`) keyword exactly once — once when any clause of the kind exists, never
when none does — and it writes it immediately before that kind's joined group
content; in particular two `From` calls share one `from` keyword. -/
theorem c2_keyword_once (s : Statement)
    (hs : s.kind = StatementKind.selectStatement) (k : ClauseKind)
    (hk : k = ClauseKind.fromClause ∨ k = ClauseKind.whereClause) :
    s.buildPieces.count (Piece.keyword k)
        = (if (clausesOfKind s.clauses k).isEmpty then 0 else 1)
    ∧ ((clausesOfKind s.clauses k).isEmpty = false →
        ∃ pre post, s.buildPieces
          = pre ++ (Piece.keyword k
              :: Piece.content k (String.intercalate k.delimStr
                  ((clausesOfKind s.clauses k).map Clause.build)) :: post)) := by
  cases s with
  | mk sk es cs =>
      simp only [Statement.kind] at hs
      subst hs
      simp only [Statement.clauses]
      constructor
      · rw [buildPieces_eq]
        have htext : (es.map (fun e => Piece.text (e.build ++ " "))).count
            (Piece.keyword k) = 0 := by
          apply List.count_eq_zero.mpr
          intro hmem
          obtain ⟨e, _, heq⟩ := List.mem_map.mp hmem
          exact Piece.noConfusion heq
        rcases hk with rfl | rfl
        · by_cases hcs : (clausesOfKind cs ClauseKind.fromClause).isEmpty <;>
            simp [kindOrder, List.count_append, List.count_cons, htext,
              count_keyword_group, onceKinds, hcs]
        · by_cases hcs : (clausesOfKind cs ClauseKind.whereClause).isEmpty <;>
            simp [kindOrder, List.count_append, List.count_cons, htext,
              count_keyword_group, onceKinds, hcs]
      · intro h
        obtain ⟨pre, post, hsplit⟩ := flatten_groups_split .selectStatement cs k
          (by rcases hk with rfl | rfl <;> simp [kindOrder])
        have ho : k ∈ onceKinds StatementKind.selectStatement := by
          rcases hk with rfl | rfl <;> simp [onceKinds]
        refine ⟨Piece.text (StatementKind.selectStatement.str ++ " ")
            :: (es.map (fun e => Piece.text (e.build ++ " ")) ++ pre), post, ?_⟩
        rw [buildPieces_eq, hsplit]
        simp [groupPieces, h, ho, List.append_assoc]

theorem c2_keyword_once_witness :
    ((Select (Ref "*") [From [Ref "a"], From [Ref "b"],
        Where [Equals (Ref "x") Placeholder],
        Where [Equals (Ref "y") Placeholder]]).kind
      = StatementKind.selectStatement)
    ∧ (Select (Ref "*") [From [Ref "a"], From [Ref "b"],
        Where [Equals (Ref "x") Placeholder],
        Where [Equals (Ref "y") Placeholder]]).buildPieces.count
          (Piece.keyword ClauseKind.fromClause) = 1 := by
  refine ⟨rfl, ?_⟩
  have h := (c2_keyword_once
    (Select (Ref "*") [From [Ref "a"], From [Ref "b"],
      Where [Equals (Ref "x") Placeholder],
      Where [Equals (Ref "y") Placeholder]])
    rfl ClauseKind.fromClause (Or.inl rfl)).1
  rw [h]
  decide

/-- C4 counterexample: applying `GroupBy` twice renders the two `group by`
clauses joined by the group-by kind's delimiter `", "`, not by a single
space as claimed: the output is `... group by a, group by b`, not
`... group by a group by b`. -/
theorem c4_two_group_by_counterexample :
    (Select (Ref "*") [From [Ref "t"], GroupBy ["a"], GroupBy ["b"]]).build
      = "select * from t group by a, group by b"
    ∧ (Select (Ref "*") [From [Ref "t"], GroupBy ["a"], GroupBy ["b"]]).build
      ≠ "select * from t group by a group by b" :=
  ⟨by decide, by decide⟩

/-- C4 (amended): a statement on which `GroupBy` was applied twice renders,
inside its group-by content, two `group by` keyword occurrences joined by the
group-by kind's `", "` delimiter (one per `GroupBy` call). -/
theorem c4_two_group_by_comma_joined (s : Statement) (g1 g2 : List String)
    (h : clausesOfKind s.clauses ClauseKind.groupByClause
        = [Clause.groupByC g1, Clause.groupByC g2]) :
    Piece.content ClauseKind.groupByClause
      (("group by " ++ String.intercalate ", " g1) ++ ", "
        ++ ("group by " ++ String.intercalate ", " g2)) ∈ s.buildPieces := by
  have hne : (clausesOfKind s.clauses ClauseKind.groupByClause).isEmpty = false := by
    rw [h]; rfl
  have hmem := content_piece_mem s ClauseKind.groupByClause hne
  rw [h] at hmem
  convert hmem using 2

theorem c4_two_group_by_comma_joined_witness :
    (clausesOfKind (Select (Ref "*")
        [From [Ref "t"], GroupBy ["a"], GroupBy ["b"]]).clauses
        ClauseKind.groupByClause
      = [Clause.groupByC ["a"], Clause.groupByC ["b"]])
    ∧ Piece.content ClauseKind.groupByClause
        (("group by " ++ String.intercalate ", " ["a"]) ++ ", "
          ++ ("group by " ++ String.intercalate ", " ["b"]))
        ∈ (Select (Ref "*")
            [From [Ref "t"], GroupBy ["a"], GroupBy ["b"]]).buildPieces :=
  ⟨rfl,
    c4_two_group_by_comma_joined
      (Select (Ref "*") [From [Ref "t"], GroupBy ["a"], GroupBy ["b"]])
      ["a"] ["b"] rfl⟩

/-- Every piece of the write trace is either header text or a keyword/content
piece of a kind that has at least one clause. -/
theorem buildPieces_shape (sk : StatementKind) (es : List Expr) (cs : List Clause) :
    ∀ p ∈ (Statement.mk sk es cs).buildPieces,
      (∃ str, p = Piece.text str)
      ∨ ∃ k', (clausesOfKind cs k').isEmpty = false
          ∧ (p = Piece.keyword k'
             ∨ p = Piece.content k' (String.intercalate k'.delimStr
                  ((clausesOfKind cs k').map Clause.build))) := by
  intro p hp
  rw [buildPieces_eq] at hp
  rcases List.mem_cons.mp hp with rfl | hp
  · exact Or.inl ⟨_, rfl⟩
  rcases List.mem_append.mp hp with hp | hp
  · obtain ⟨e, _, rfl⟩ := List.mem_map.mp hp
    exact Or.inl ⟨_, rfl⟩
  · obtain ⟨l, hl, hpl⟩ := List.mem_flatten.mp hp
    obtain ⟨k', _, rfl⟩ := List.mem_map.mp hl
    obtain ⟨hne, hshape⟩ := mem_groupPieces sk cs k' p hpl
    exact Or.inr ⟨k', hne, hshape⟩

/-- C8: a statement with no where-kind clause never gets a `where` keyword —
nor any where-group content — from the assembler, and rendering still
succeeds: the output is exactly the trimmed concatenation of the remaining
pieces. -/
theorem c8_no_where_keyword_when_absent (s : Statement)
    (h : ∀ c ∈ s.clauses, c.kind ≠ ClauseKind.whereClause) :
    Piece.keyword ClauseKind.whereClause ∉ s.buildPieces
    ∧ (∀ t, Piece.content ClauseKind.whereClause t ∉ s.buildPieces)
    ∧ s.build = trimSpace (renderPieces s.buildPieces) := by
  cases s with
  | mk sk es cs =>
      simp only [Statement.clauses] at h
      have hempty : clausesOfKind cs ClauseKind.whereClause = [] :=
        List.filter_eq_nil_iff.mpr (fun c hc => by simpa using h c hc)
      refine ⟨?_, ?_, build_eq_pieces _⟩
      · intro hmem
        rcases buildPieces_shape sk es cs _ hmem with ⟨str, hstr⟩ | ⟨k', hne, hsh | hsh⟩
        · exact Piece.noConfusion hstr
        · cases Piece.keyword.inj hsh
          rw [hempty] at hne
          simp at hne
        · exact Piece.noConfusion hsh
      · intro t hmem
        rcases buildPieces_shape sk es cs _ hmem with ⟨str, hstr⟩ | ⟨k', hne, hsh | hsh⟩
        · exact Piece.noConfusion hstr
        · exact Piece.noConfusion hsh
        · cases (Piece.content.inj hsh).1
          rw [hempty] at hne
          simp at hne

theorem c8_no_where_keyword_when_absent_witness :
    (∀ c ∈ (Select (Ref "*") [From [Ref "t"], OrderBy ["c"]]).clauses,
        c.kind ≠ ClauseKind.whereClause)
    ∧ Piece.keyword ClauseKind.whereClause
        ∉ (Select (Ref "*") [From [Ref "t"], OrderBy ["c"]]).buildPieces := by
  have hyp : ∀ c ∈ (Select (Ref "*") [From [Ref "t"], OrderBy ["c"]]).clauses,
      c.kind ≠ ClauseKind.whereClause := by
    intro c hc
    have hc' : c ∈ [Clause.fromC [Ref "t"], Clause.orderByC ["c"]] := hc
    rcases List.mem_cons.mp hc' with rfl | hc''
    · simp only [Clause.kind]; decide
    rcases List.mem_cons.mp hc'' with rfl | hc''
    · simp only [Clause.kind]; decide
    · exact absurd hc'' (List.not_mem_nil c)
  exact ⟨hyp,
    (c8_no_where_keyword_when_absent
      (Select (Ref "*") [From [Ref "t"], OrderBy ["c"]]) hyp).1⟩

/-- C9: inside the output, the clauses of one kind appear as a single content
piece holding their renderings in the order the configuration functions were
applied (the append order of the clause list), joined by that kind's declared
delimiter; the whole output is the trimmed concatenation of the pieces. -/
theorem c9_within_kind_append_order (s : Statement) (k : ClauseKind)
    (h : (clausesOfKind s.clauses k).isEmpty = false) :
    Piece.content k (String.intercalate k.delimStr
        ((clausesOfKind s.clauses k).map Clause.build)) ∈ s.buildPieces
    ∧ s.build = trimSpace (renderPieces s.buildPieces) :=
  ⟨content_piece_mem s k h, build_eq_pieces s⟩

theorem c9_within_kind_append_order_witness :
    ((clausesOfKind (Select (Ref "*") [From [Ref "t"],
        Where [Equals (Ref "a") Placeholder],
        Where [Equals (Ref "b") Placeholder]]).clauses
        ClauseKind.whereClause).isEmpty = false)
    ∧ Piece.content ClauseKind.whereClause
        (String.intercalate ClauseKind.whereClause.delimStr
          ((clausesOfKind (Select (Ref "*") [From [Ref "t"],
              Where [Equals (Ref "a") Placeholder],
              Where [Equals (Ref "b") Placeholder]]).clauses
              ClauseKind.whereClause).map Clause.build))
        ∈ (Select (Ref "*") [From [Ref "t"],
            Where [Equals (Ref "a") Placeholder],
            Where [Equals (Ref "b") Placeholder]]).buildPieces :=
  ⟨rfl,
    (c9_within_kind_append_order
      (Select (Ref "*") [From [Ref "t"],
        Where [Equals (Ref "a") Placeholder],
        Where [Equals (Ref "b") Placeholder]])
      ClauseKind.whereClause rfl).1⟩

end SqlBuilder
